import Mathlib

/-!
Shallow embedding of `src/eval.py` from the biaffineparser repository.

The module under verification provides:
  * `write_conll(writer, sentences, heads=None, deprels=None)` - CoNLL encoder;
  * `exec_eval(parsed_file, gold_file, show_details)` - runs the external
    `eval.pl` scorer and parses its output;
  * class `Evaluator` with `reset`, `append`, `report`, `on_batch_end`.

Modelling conventions:
  * Python numbers parsed by `float(...)` are modelled as exact rationals (ℚ);
    the decimal strings appearing in scorer output are parsed exactly.
  * A raised Python exception is modelled as `none` of an `Option` result.
  * The external scorer subprocess is modelled as a parameter
    `scorer : String → String → ProcResult` mapping the *contents* of the
    hypothesis file and the gold file to a completed-process record
    (exit code, stdout, stderr); temporary files are identified with their
    contents, and the `-q` flag (`show_details`) is part of the fixed scorer.
  * Mutation of `self._parsed` is modelled by explicit state passing over
    `ParsedState`; a method that can raise returns a success flag or an
    `Option`, together with the state at the moment the exception escapes.
  * String splitting/stripping is implemented structurally over the
    character list of the string, so that all definitions evaluate by
    kernel reduction.
-/

/-- Splits a character list at every occurrence of the character `c`;
`acc` holds the (reversed) characters of the current piece. -/
def splitOnCharAux (c : Char) : List Char → List Char → List (List Char)
  | [], acc => [acc.reverse]
  | x :: xs, acc =>
    if x = c then acc.reverse :: splitOnCharAux c xs []
    else splitOnCharAux c xs (x :: acc)

/-- All pieces of `s` between occurrences of the separator character `c`
(Python `s.split(c)` with its default keep-empty-pieces behaviour). -/
def splitOnChar (s : String) (c : Char) : List String :=
  (splitOnCharAux c s.toList []).map (fun l => ⟨l⟩)

/-- Joins strings with the separator `sep` between consecutive elements. -/
def joinSep (sep : String) : List String → String
  | [] => ""
  | [x] => x
  | x :: xs => x ++ sep ++ joinSep sep xs

/-- Models `str.split(sep, maxsplit)` from Python for a one-character
separator: at most `maxsplit` splits, counted from the left; the remainder
(separators included) becomes the final element. -/
def pySplit (s : String) (sep : Char) (maxsplit : Nat) : List String :=
  let parts := splitOnChar s sep
  if parts.length ≤ maxsplit + 1 then parts
  else parts.take maxsplit ++ [joinSep ⟨[sep]⟩ (parts.drop maxsplit)]

/-- Models `str.rsplit(sep, maxsplit)` from Python for a one-character
separator: at most `maxsplit` splits, counted from the right; the remainder
(separators included) becomes the first element. -/
def pyRsplit (s : String) (sep : Char) (maxsplit : Nat) : List String :=
  let parts := splitOnChar s sep
  if parts.length ≤ maxsplit + 1 then parts
  else joinSep ⟨[sep]⟩ (parts.take (parts.length - maxsplit))
    :: parts.drop (parts.length - maxsplit)

/-- Removes leading and trailing whitespace characters. -/
def trimChars (cs : List Char) : List Char :=
  ((cs.dropWhile Char.isWhitespace).reverse.dropWhile Char.isWhitespace).reverse

/-- Models Python `str.rstrip()`: removes trailing whitespace. -/
def rstrip (s : String) : String :=
  ⟨(s.toList.reverse.dropWhile Char.isWhitespace).reverse⟩

/-- Numeric value of a list of decimal digit characters. -/
def digitsVal (cs : List Char) : Nat :=
  List.foldl (fun a c => 10 * a + (c.toNat - 48)) 0 cs

/-- Exponent part of a Python float literal (after the `e`/`E`):
an optional sign followed by at least one digit. -/
def pyExpVal (cs : List Char) : Option Int :=
  match cs with
  | [] => none
  | '+' :: r => if r ≠ [] ∧ r.all Char.isDigit then some (digitsVal r : Int) else none
  | '-' :: r => if r ≠ [] ∧ r.all Char.isDigit then some (-(digitsVal r : Int)) else none
  | r => if r.all Char.isDigit then some (digitsVal r : Int) else none

/-- The exact rational value `± m / 10 ^ k * 10 ^ e` of a decimal literal
with digit value `m`, `k` fractional digits and exponent `e`, built with a
single `mkRat` so that it evaluates by kernel reduction. -/
def pyFloatVal (sign : Bool) (m k : Nat) (e : Int) : ℚ :=
  let num : Int := if sign then -(m : Int) else (m : Int)
  if 0 ≤ e then mkRat (num * (Nat.pow 10 e.toNat : Nat)) (Nat.pow 10 k)
  else mkRat num (Nat.pow 10 k * Nat.pow 10 (-e).toNat)

/-- Mantissa and optional exponent of a Python float literal, after the
optional sign: `digits [. digits] [e/E exp]` with at least one digit in the
integer or fractional part.  Returns the exact rational value. -/
def pyFloatCore (sign : Bool) (cs : List Char) : Option ℚ :=
  let ip := cs.takeWhile Char.isDigit
  let rest := cs.dropWhile Char.isDigit
  let fp := match rest with
    | '.' :: r => r.takeWhile Char.isDigit
    | _ => []
  let rest2 := match rest with
    | '.' :: r => r.dropWhile Char.isDigit
    | _ => rest
  if ip = [] ∧ fp = [] then none
  else
    let m := digitsVal ip * Nat.pow 10 fp.length + digitsVal fp
    match rest2 with
    | [] => some (pyFloatVal sign m fp.length 0)
    | 'e' :: r => (pyExpVal r).map (pyFloatVal sign m fp.length)
    | 'E' :: r => (pyExpVal r).map (pyFloatVal sign m fp.length)
    | _ => none

/-- Models Python `float(s)` on finite decimal literals: surrounding
whitespace is stripped, an optional sign is honoured; `none` models the
`ValueError` raised on any other input. -/
def pyFloat (s : String) : Option ℚ :=
  match trimChars s.toList with
  | '+' :: r => pyFloatCore false r
  | '-' :: r => pyFloatCore true r
  | r => pyFloatCore false r

/-- A completed scorer subprocess, as observed by `exec_eval`:
`subprocess.run(...)` with captured, already-decoded stdout/stderr. -/
structure ProcResult where
  returncode : Int
  stdout : String
  stderr : String
  deriving DecidableEq, Repr

/-- The dictionary returned by `exec_eval`: keys `code`, `raw`, `UAS`, `LAS`. -/
structure EvalResult where
  code : Int
  raw : String
  UAS : Option ℚ
  LAS : Option ℚ
  deriving DecidableEq, Repr

/-- Models `float(line.rsplit(' ', 2)[-2])` from `exec_eval`: `none` models
both the `IndexError` when the line has no space and the `ValueError` when
the selected field is not numeric. -/
def scoreOfLine (line : String) : Option ℚ :=
  let parts := pyRsplit line ' ' 2
  if parts.length < 2 then none
  else pyFloat (parts.getD (parts.length - 2) "")

/-- Models the list comprehension `[float(line.rsplit(' ', 2)[-2]) for line
in lines]`: the lines are processed left to right and the first failing one
makes the whole computation raise. -/
def mapScores : List String → Option (List ℚ)
  | [] => some []
  | l :: ls =>
    match scoreOfLine l, mapScores ls with
    | some v, some vs => some (v :: vs)
    | _, _ => none

/-- Models `exec_eval` from `src/eval.py` given the completed subprocess:
the raw output is stdout on exit code 0 and stderr otherwise; on exit code 0
the first two newline-separated pieces of the output are parsed by
`scoreOfLine` into `LAS` (first line) and `UAS` (second line); `none` models
the exception raised when a line fails to parse or fewer than two values
are produced for the tuple unpacking. -/
def exec_eval (p : ProcResult) : Option EvalResult :=
  let output := if p.returncode = 0 then p.stdout else p.stderr
  if p.returncode = 0 then
    match mapScores ((pySplit output '\n' 2).take 2) with
    | some [las, uas] => some ⟨p.returncode, output, some uas, some las⟩
    | _ => none
  else
    some ⟨p.returncode, output, none, none⟩

/-- A token record as consumed by `write_conll`: the ten CoNLL fields.
`id` and `head` are integers (stringified on output); the remaining fields
are passed through as text. -/
structure Token where
  id : Int
  form : String
  lemma_ : String
  cpostag : String
  postag : String
  feats : String
  head : Int
  deprel : String
  phead : String
  pdeprel : String
  deriving DecidableEq, Repr

/-- The tab-joined token line of `write_conll`, given the rendered
head and deprel fields (which depend on whether overrides are present). -/
def tokenFields (t : Token) (headStr deprelStr : String) : String :=
  joinSep "\t" [toString t.id, t.form, t.lemma_, t.cpostag, t.postag, t.feats,
    headStr, deprelStr, t.phead, t.pdeprel]

/-- Models `str(heads[i][j]) if heads is not None else str(token['head'])`
for one token, given the head row of the current sentence; `none` models the
`IndexError` when the row is too short. -/
def headField (hrow : Option (List Int)) (j : Nat) (t : Token) : Option String :=
  match hrow with
  | none => some (toString t.head)
  | some hr => (hr.get? j).map toString

/-- Models `deprels[i][j] if deprels is not None else token['deprel']`
for one token, given the deprel row of the current sentence; `none` models
the `IndexError` when the row is too short. -/
def deprelField (drow : Option (List String)) (j : Nat) (t : Token) : Option String :=
  match drow with
  | none => some t.deprel
  | some dr => dr.get? j

/-- The inner loop of `write_conll` over the tokens of one sentence,
starting at token index `j`: one line per token, each terminated by a
newline.  `none` models an `IndexError` escaping the loop. -/
def write_conll_tokens (hrow : Option (List Int)) (drow : Option (List String)) :
    Nat → List Token → Option String
  | _, [] => some ""
  | j, t :: rest =>
    match headField hrow j t, deprelField drow j t with
    | some hs, some ds =>
      (write_conll_tokens hrow drow (j + 1) rest).map
        (fun s => tokenFields t hs ds ++ "\n" ++ s)
    | _, _ => none

/-- The row of `rows` used for sentence `i`, or `none` inside `some` when no
override list was supplied; the outer `none` models the `IndexError` when an
override list was supplied but has no row `i`.  (The source indexes
`heads[i][j]` afresh at every token; the lookup is pure, so fetching the row
once per sentence is equivalent.) -/
def sentRow {α : Type} (rows : Option (List (List α))) (i : Nat) : Option (Option (List α)) :=
  match rows with
  | none => some none
  | some rs => (rs.get? i).map some

/-- The outer loop of `write_conll` over sentences, starting at sentence
index `i`: each sentence's token lines are followed by one empty line. -/
def write_conll_sents (heads : Option (List (List Int)))
    (deprels : Option (List (List String))) :
    Nat → List (List Token) → Option String
  | _, [] => some ""
  | i, toks :: rest =>
    match sentRow heads i, sentRow deprels i with
    | some hrow, some drow =>
      match write_conll_tokens hrow drow 0 toks with
      | some block =>
        (write_conll_sents heads deprels (i + 1) rest).map
          (fun s => block ++ "\n" ++ s)
      | none => none
    | _, _ => none

/-- Models `write_conll(writer, sentences, heads, deprels)` from
`src/eval.py`: returns the full text written to the writer, or `none` when
an `IndexError` is raised by an override lookup. -/
def write_conll (sentences : List (List Token)) (heads : Option (List (List Int)))
    (deprels : Option (List (List String))) : Option String :=
  write_conll_sents heads deprels 0 sentences

/-- Modelled from the spec sentence of C4: one line per token consisting of
the ten tab-separated fields `id, form, lemma, cpostag, postag, feats,
head, deprel, phead, pdeprel` in that order, using the token's intrinsic
fields. -/
def conllTokenLine (t : Token) : String :=
  joinSep "\t" [toString t.id, t.form, t.lemma_, t.cpostag, t.postag, t.feats,
    toString t.head, t.deprel, t.phead, t.pdeprel] ++ "\n"

/-- Concatenation of a list of strings, in order. -/
def concatAll : List String → String
  | [] => ""
  | s :: ss => s ++ concatAll ss

/-- Modelled from the spec sentence of C4: every sentence (the last one
included) is the concatenation of its token lines followed by exactly one
blank line. -/
def conllText (sentences : List (List Token)) : String :=
  concatAll (sentences.map (fun toks => concatAll (toks.map conllTokenLine) ++ "\n"))

/-- A token with its `head` and `deprel` fields replaced by the supplied
predictions (the other eight fields kept). -/
def overrideToken (t : Token) (h : Int) (d : String) : Token :=
  ⟨t.id, t.form, t.lemma_, t.cpostag, t.postag, t.feats, h, d, t.phead, t.pdeprel⟩

/-- One sentence with each token's `head`/`deprel` replaced positionally. -/
def overrideSent : List Token → List Int → List String → List Token
  | t :: ts, h :: hs, d :: ds => overrideToken t h d :: overrideSent ts hs ds
  | _, _, _ => []

/-- All sentences with each token's `head`/`deprel` replaced positionally. -/
def overrideSents : List (List Token) → List (List Int) → List (List String) → List (List Token)
  | toks :: ts, hr :: hs, dr :: ds => overrideSent toks hr dr :: overrideSents ts hs ds
  | _, _, _ => []

/-- The `self._parsed` dictionary of `Evaluator`: three parallel
accumulation lists plus the last computed metrics. -/
structure ParsedState where
  sentences : List (List Token)
  heads : List (List Int)
  deprels : List (List String)
  UAS : Option ℚ
  LAS : Option ℚ
  deriving DecidableEq, Repr

namespace Evaluator

/-- Models `Evaluator.reset`: fresh empty accumulation state with both
metrics cleared. -/
def reset : ParsedState :=
  ⟨[], [], [], none, none⟩

/-- Models `heads, deprels = zip(*parsed)`: `none` models the `ValueError`
raised by unpacking `zip()` of an empty argument list; on a non-empty list
of pairs the two components are the transposed tuples. -/
def zipStar (parsed : List (List Int × List Int)) :
    Option (List (List Int) × List (List Int)) :=
  match parsed with
  | [] => none
  | _ :: _ => some (parsed.map Prod.fst, parsed.map Prod.snd)

/-- Models `Evaluator.append(sentences, parsed)` with the deprel map
modelled by `lookup : Int → String` (`self._deprel_map.lookup`).  The
sentences list is extended *before* `zip(*parsed)` is evaluated, so when the
unpacking raises (flag `false`) the returned state is the state at the
moment the exception escapes: sentences extended, heads/deprels untouched. -/
def append (lookup : Int → String) (st : ParsedState)
    (sentences : List (List Token)) (parsed : List (List Int × List Int)) :
    Bool × ParsedState :=
  let st1 : ParsedState := ⟨st.sentences ++ sentences, st.heads, st.deprels, st.UAS, st.LAS⟩
  match zipStar parsed with
  | none => (false, st1)
  | some (heads, deprels) =>
    (true, ⟨st1.sentences,
            st1.heads ++ heads,
            st1.deprels ++ deprels.map (fun row => row.map (fun d => lookup (if d > 0 then d else 0))),
            st1.UAS, st1.LAS⟩)

/-- The success log line of `Evaluator.report`:
`"[evaluation]\n{}".format(result['raw'].rstrip())`. -/
def successMessage (result : EvalResult) : String :=
  "[evaluation]\n" ++ rstrip result.raw

/-- The failure log line of `Evaluator.report`:
`"[evaluation] ERROR({}): {}".format(result['code'], result['raw'].rstrip())`. -/
def errorMessage (result : EvalResult) : String :=
  "[evaluation] ERROR(" ++ toString result.code ++ "): " ++ rstrip result.raw

/-- The tail of `Evaluator.report` after `result` has been settled: on exit
code 0 the metrics are stored into the state and the raw output is logged,
otherwise the state is left as it was and the diagnostic line is logged. -/
def finishReport (st : ParsedState) (result : EvalResult) : ParsedState × String :=
  if result.code = 0 then
    (⟨st.sentences, st.heads, st.deprels, result.UAS, result.LAS⟩, successMessage result)
  else
    (st, errorMessage result)

/-- Models `Evaluator.report`: encode the accumulated predictions as the
hypothesis file, score it against the configured gold file, on non-zero exit
regenerate the gold from the accumulated sentences (no overrides) and score
once more, then store metrics on success or log the failure.  The result
pairs the state after the call with the line given to the logger; `none`
models an exception escaping (encoding `IndexError` or a `scoreOfLine`
parse failure inside `exec_eval`). -/
def report (scorer : String → String → ProcResult) (gold : String)
    (st : ParsedState) : Option (ParsedState × String) :=
  match write_conll st.sentences (some st.heads) (some st.deprels) with
  | none => none
  | some hyp =>
    match exec_eval (scorer hyp gold) with
    | none => none
    | some r1 =>
      if r1.code ≠ 0 then
        match write_conll st.sentences none none with
        | none => none
        | some gold2 =>
          match exec_eval (scorer hyp gold2) with
          | none => none
          | some r2 => some (finishReport st r2)
      else some (finishReport st r1)

end Evaluator

/-- One training-loop batch payload as seen by `Evaluator.on_batch_end`:
the `train` flag, the model inputs `data['xs'][:-1]` (opaque, of type `ι`),
and the token batch `data['xs'][-1]`. -/
structure BatchData (ι : Type) where
  train : Bool
  inputs : ι
  sentences : List (List Token)

/-- Models `Evaluator.on_batch_end(data)` with the collaborating model's
inference operation `self._parser.parse(*data['xs'][:-1], use_cache=True)`
modelled by `parse : ι → List (List Int × List Int)`: a no-op on training
batches; on validation batches the parser runs and the batch's sentences,
each with its leading root token removed (`tokens[1:]`), are appended with
the predictions.  The Bool flag is `false` when `append` raises. -/
def Evaluator.on_batch_end {ι : Type} (parse : ι → List (List Int × List Int))
    (lookup : Int → String) (st : ParsedState) (data : BatchData ι) :
    Bool × ParsedState :=
  if data.train then (true, st)
  else Evaluator.append lookup st (data.sentences.map (fun tokens => tokens.drop 1))
    (parse data.inputs)

/-- A concrete token used by the witnesses. -/
def tokDog : Token :=
  ⟨1, "Dog", "dog", "N", "NN", "_", 2, "nsubj", "_", "_"⟩

/-- A second concrete token used by the witnesses. -/
def tokBarks : Token :=
  ⟨2, "barks", "bark", "V", "VB", "_", 0, "root", "_", "_"⟩

/-- A concrete scorer used by the witnesses: fails against the configured
gold file `"GOLD"` and succeeds against any regenerated gold file. -/
def scRetry : String → String → ProcResult := fun _ g =>
  if g = "GOLD" then ⟨1, "", "mismatch"⟩ else ⟨0, "a 1 2\nb 3 4", ""⟩

/-- A concrete scorer that exits 0 with output the two-line numeric
convention expects, used by the witnesses. -/
def scTwoLines : String → String → ProcResult := fun _ _ =>
  ⟨0, "a 1 2\nb 3 4", ""⟩

/-- A concrete scorer that exits 0 with unparseable output (models a
scorer whose stdout violates the two-line numeric convention). -/
def scParseError : String → String → ProcResult := fun _ _ =>
  ⟨0, "junk", ""⟩

/-- A concrete scorer that always fails (non-zero exit code). -/
def scFail : String → String → ProcResult := fun _ _ =>
  ⟨1, "", "boom"⟩

/-- The element just before the last of a list ending in `[f, g]`. -/
theorem getD_append_two (a : List String) (f g : String) :
    (a ++ [f, g]).getD a.length "" = f := by
  induction a with
  | nil => rfl
  | cons x xs ih => simpa using ih

/-- When a line's fields end in `[f, g]`, the score parsed from the line is
`float(f)`, the second-to-last field. -/
theorem scoreOfLine_ends (l : String) (a : List String) (f g : String)
    (h : pyRsplit l ' ' 2 = a ++ [f, g]) : scoreOfLine l = pyFloat f := by
  simp only [scoreOfLine, h]
  have hlen : (a ++ [f, g]).length = a.length + 2 := by simp
  rw [hlen]
  have h2 : ¬(a.length + 2 < 2) := by omega
  rw [if_neg h2, Nat.add_sub_cancel, getD_append_two]

/-- C3: for every scorer run exiting with code 0 whose first two output
lines each end in two space-separated numeric fields, `exec_eval` returns
LAS = the parsed second-to-last field of the first line and UAS = the
parsed second-to-last field of the second line. -/
theorem exec_eval_success_parses_fields (p : ProcResult) (l1 l2 : String)
    (a1 a2 : List String) (f1 g1 f2 g2 : String) (v1 w1 v2 w2 : ℚ)
    (h0 : p.returncode = 0)
    (hsplit : (pySplit p.stdout '\n' 2).take 2 = [l1, l2])
    (h1 : pyRsplit l1 ' ' 2 = a1 ++ [f1, g1])
    (h2 : pyRsplit l2 ' ' 2 = a2 ++ [f2, g2])
    (hv1 : pyFloat f1 = some v1) (_hw1 : pyFloat g1 = some w1)
    (hv2 : pyFloat f2 = some v2) (_hw2 : pyFloat g2 = some w2) :
    exec_eval p = some ⟨p.returncode, p.stdout, some v2, some v1⟩ := by
  have e1 : scoreOfLine l1 = some v1 := (scoreOfLine_ends l1 a1 f1 g1 h1).trans hv1
  have e2 : scoreOfLine l2 = some v2 := (scoreOfLine_ends l2 a2 f2 g2 h2).trans hv2
  simp [exec_eval, h0, hsplit, mapScores, e1, e2]

/-- Witness for C3 at a concrete scorer output. -/
theorem exec_eval_success_parses_fields_witness :
    (⟨0, "x 1 2\ny 3 4", ""⟩ : ProcResult).returncode = 0 ∧
    exec_eval ⟨0, "x 1 2\ny 3 4", ""⟩ = some ⟨0, "x 1 2\ny 3 4", some 3, some 1⟩ := by
  refine ⟨rfl, ?_⟩
  exact exec_eval_success_parses_fields ⟨0, "x 1 2\ny 3 4", ""⟩ "x 1 2" "y 3 4"
    ["x"] ["y"] "1" "2" "3" "4" 1 2 3 4 rfl (by decide) (by decide) (by decide)
    (by decide) (by decide) (by decide) (by decide)

/-- C2 counterexample: on the stdout claimed in the specification the
second-to-last whitespace token of each line is `score:`, so `float` raises
`ValueError` (modelled by `none`) and no LAS/UAS are returned at all. -/
theorem exec_eval_claimed_scenario_raises :
    exec_eval ⟨0, "Labeled   attachment score: 88.2\nUnlabeled attachment score: 91.4\n", ""⟩
      = none ∧
    exec_eval ⟨0, "Labeled   attachment score: 88.2\nUnlabeled attachment score: 91.4\n", ""⟩
      ≠ some ⟨0, "Labeled   attachment score: 88.2\nUnlabeled attachment score: 91.4\n",
          some (mkRat 914 10), some (mkRat 882 10)⟩ := by
  exact ⟨by decide, by decide⟩

/-- C2 amended: with a trailing field after each number (as in the real
`eval.pl` output, which ends `... = 88.2 %`), the second-to-last field is
the number and `exec_eval` returns LAS = 88.2 (first line) and UAS = 91.4
(second line). -/
theorem exec_eval_percent_scenario :
    exec_eval ⟨0, "Labeled   attachment score: 88.2 %\nUnlabeled attachment score: 91.4 %\n", ""⟩
      = some ⟨0, "Labeled   attachment score: 88.2 %\nUnlabeled attachment score: 91.4 %\n",
          some (mkRat 914 10), some (mkRat 882 10)⟩ := by
  decide

/-- C8: whenever `exec_eval` returns, the raw output is the decoded stdout
exactly when the exit code is 0 and the decoded stderr otherwise, and on a
non-zero exit code both UAS and LAS are unset. -/
theorem exec_eval_raw_output_and_failure (p : ProcResult) (r : EvalResult)
    (h : exec_eval p = some r) :
    r.raw = (if p.returncode = 0 then p.stdout else p.stderr) ∧
    (p.returncode ≠ 0 → r.UAS = none ∧ r.LAS = none) := by
  simp only [exec_eval] at h
  split at h
  case isTrue h0 =>
    split at h
    case h_1 las uas hm =>
      injection h with h'
      subst h'
      exact ⟨by simp [h0], fun hne => absurd h0 hne⟩
    case h_2 => exact absurd h (by simp)
  case isFalse h0 =>
    injection h with h'
    subst h'
    exact ⟨by simp [h0], fun _ => ⟨rfl, rfl⟩⟩

/-- Witness for C8 at a concrete failing run. -/
theorem exec_eval_raw_output_and_failure_witness :
    exec_eval ⟨2, "out", "err"⟩ = some ⟨2, "err", none, none⟩ ∧
    ((⟨2, "err", none, none⟩ : EvalResult).raw =
      (if (⟨2, "out", "err"⟩ : ProcResult).returncode = 0 then "out" else "err") ∧
     ((⟨2, "out", "err"⟩ : ProcResult).returncode ≠ 0 →
       (⟨2, "err", none, none⟩ : EvalResult).UAS = none ∧
       (⟨2, "err", none, none⟩ : EvalResult).LAS = none)) := by
  refine ⟨rfl, ?_⟩
  exact exec_eval_raw_output_and_failure ⟨2, "out", "err"⟩ ⟨2, "err", none, none⟩ rfl

/-- On a non-empty batch, `append` succeeds and extends the three parallel
lists, with every predicted deprel id `d` mapped to the label of `d` when
`d > 0` and to the label of id 0 otherwise. -/
theorem Evaluator.append_ne_nil (lookup : Int → String) (st : ParsedState)
    (sents : List (List Token)) (parsed : List (List Int × List Int))
    (hne : parsed ≠ []) :
    Evaluator.append lookup st sents parsed =
      (true, ⟨st.sentences ++ sents,
              st.heads ++ parsed.map Prod.fst,
              st.deprels ++ parsed.map
                (fun q => q.2.map (fun d => if d > 0 then lookup d else lookup 0)),
              st.UAS, st.LAS⟩) := by
  have hfun : (fun d : Int => lookup (if d > 0 then d else 0)) =
      (fun d : Int => if d > 0 then lookup d else lookup 0) := by
    funext d
    by_cases hd : d > 0 <;> simp [hd]
  cases parsed with
  | nil => exact absurd rfl hne
  | cons q qs =>
    simp only [Evaluator.append, Evaluator.zipStar, hfun, List.map_map]
    rfl

/-- C5: for every non-empty batch passed to `append`, the label appended
for a predicted deprel id `d` is the map's label for `d` when `d > 0` and
the map's id-0 default label whenever `d` is non-positive. -/
theorem append_deprel_mapping (lookup : Int → String) (st : ParsedState)
    (sents : List (List Token)) (parsed : List (List Int × List Int))
    (hne : parsed ≠ []) :
    (Evaluator.append lookup st sents parsed).1 = true ∧
    (Evaluator.append lookup st sents parsed).2.deprels =
      st.deprels ++ parsed.map
        (fun q => q.2.map (fun d => if d > 0 then lookup d else lookup 0)) := by
  rw [Evaluator.append_ne_nil lookup st sents parsed hne]
  exact ⟨rfl, rfl⟩

/-- Witness for C5: ids `0`, `-1` both map to the id-0 label, id `3` to its
own label, under the lookup that prints the id. -/
theorem append_deprel_mapping_witness :
    ([([2], [0, -1, 3])] : List (List Int × List Int)) ≠ [] ∧
    (Evaluator.append (fun i => toString i) Evaluator.reset [[tokDog]]
        [([2], [0, -1, 3])]).2.deprels = [["0", "0", "3"]] := by
  refine ⟨by decide, ?_⟩
  exact (append_deprel_mapping (fun i => toString i) Evaluator.reset [[tokDog]]
    [([2], [0, -1, 3])] (by decide)).2.trans (by decide)

/-- C10: `append` with an empty prediction list raises (flag `false`), and
at that point the sentences list has already been extended while heads and
deprels are unchanged, so the parallel lists can end up with unequal
lengths. -/
theorem append_empty_parsed_partial_mutation (lookup : Int → String)
    (st : ParsedState) (sents : List (List Token)) :
    Evaluator.append lookup st sents [] =
      (false, ⟨st.sentences ++ sents, st.heads, st.deprels, st.UAS, st.LAS⟩) ∧
    (sents ≠ [] → st.sentences.length = st.heads.length →
      (Evaluator.append lookup st sents []).2.sentences.length ≠
      (Evaluator.append lookup st sents []).2.heads.length) := by
  refine ⟨rfl, ?_⟩
  intro hne hlen
  have hpos : 0 < sents.length := List.length_pos.mpr hne
  simp only [Evaluator.append, Evaluator.zipStar, List.length_append]
  omega

/-- Witness for C10: appending one sentence with no predictions leaves
one sentence against zero head rows. -/
theorem append_empty_parsed_partial_mutation_witness :
    Evaluator.append (fun i => toString i) Evaluator.reset [[tokBarks]] [] =
      (false, ⟨[[tokBarks]], [], [], none, none⟩) ∧
    (Evaluator.append (fun i => toString i) Evaluator.reset [[tokBarks]] []).2.sentences.length ≠
    (Evaluator.append (fun i => toString i) Evaluator.reset [[tokBarks]] []).2.heads.length := by
  have h := append_empty_parsed_partial_mutation (fun i => toString i) Evaluator.reset [[tokBarks]]
  exact ⟨h.1.trans (by decide), h.2 (by decide) rfl⟩

/-- C7: `on_batch_end` leaves the accumulated state untouched on training
batches; on validation batches it runs the model's parse operation and
appends the batch's sentences, each without its leading root token,
together with the predicted heads and mapped deprels. -/
theorem on_batch_end_behavior {ι : Type} (parse : ι → List (List Int × List Int))
    (lookup : Int → String) (st : ParsedState) (data : BatchData ι) :
    (data.train = true → Evaluator.on_batch_end parse lookup st data = (true, st)) ∧
    (data.train = false → parse data.inputs ≠ [] →
      Evaluator.on_batch_end parse lookup st data =
        (true, ⟨st.sentences ++ data.sentences.map (fun tokens => tokens.drop 1),
                st.heads ++ (parse data.inputs).map Prod.fst,
                st.deprels ++ (parse data.inputs).map
                  (fun q => q.2.map (fun d => if d > 0 then lookup d else lookup 0)),
                st.UAS, st.LAS⟩)) := by
  constructor
  · intro ht
    simp [Evaluator.on_batch_end, ht]
  · intro ht hne
    simp only [Evaluator.on_batch_end, ht, Bool.false_eq_true, if_false]
    exact Evaluator.append_ne_nil lookup st _ _ hne

/-- Witness for C7: a validation batch is parsed and appended with the
root token dropped from its sentence. -/
theorem on_batch_end_behavior_witness :
    Evaluator.on_batch_end (fun _ : Unit => [([2], [0])]) (fun i => toString i)
      Evaluator.reset ⟨false, (), [[tokDog, tokBarks]]⟩ =
      (true, ⟨[[tokBarks]], [[2]], [["0"]], none, none⟩) := by
  have h := (on_batch_end_behavior (fun _ : Unit => [([2], [0])]) (fun i => toString i)
      Evaluator.reset ⟨false, (), [[tokDog, tokBarks]]⟩).2 rfl (by decide)
  exact h.trans (by decide)

/-- Without overrides the token loop emits each token's intrinsic line. -/
theorem write_conll_tokens_none (toks : List Token) (j : Nat) :
    write_conll_tokens none none j toks = some (concatAll (toks.map conllTokenLine)) := by
  induction toks generalizing j with
  | nil => rfl
  | cons t ts ih =>
    simp only [write_conll_tokens, headField, deprelField, ih]
    rfl

/-- Without overrides the sentence loop emits exactly the spec-side text. -/
theorem write_conll_sents_none (sents : List (List Token)) (i : Nat) :
    write_conll_sents none none i sents = some (conllText sents) := by
  induction sents generalizing i with
  | nil => rfl
  | cons toks rest ih =>
    simp only [write_conll_sents, sentRow, write_conll_tokens_none, ih]
    rfl

/-- Consuming the head row of an override list shifts the token index. -/
theorem write_conll_tokens_shift (toks : List Token) (j : Nat) (h : Int)
    (hr : List Int) (d : String) (dr : List String) :
    write_conll_tokens (some (h :: hr)) (some (d :: dr)) (j + 1) toks =
    write_conll_tokens (some hr) (some dr) j toks := by
  induction toks generalizing j with
  | nil => rfl
  | cons t ts ih =>
    simp only [write_conll_tokens, headField, deprelField, List.get?_cons_succ, ih]

/-- With override rows of matching length the token loop emits the lines of
the overridden tokens. -/
theorem write_conll_tokens_override (toks : List Token) (hr : List Int)
    (dr : List String) (hlen : toks.length = hr.length)
    (dlen : toks.length = dr.length) :
    write_conll_tokens (some hr) (some dr) 0 toks =
      some (concatAll ((overrideSent toks hr dr).map conllTokenLine)) := by
  induction toks generalizing hr dr with
  | nil =>
    have h1 : hr = [] := by
      cases hr with
      | nil => rfl
      | cons a l => simp at hlen
    have h2 : dr = [] := by
      cases dr with
      | nil => rfl
      | cons a l => simp at dlen
    subst h1 h2
    rfl
  | cons t ts ih =>
    cases hr with
    | nil => simp at hlen
    | cons h hs =>
      cases dr with
      | nil => simp at dlen
      | cons d ds =>
        simp only [write_conll_tokens, headField, deprelField, List.get?_cons_zero,
          Option.map_some']
        rw [write_conll_tokens_shift,
          ih hs ds (by simpa using hlen) (by simpa using dlen)]
        rfl

/-- Consuming the first row of both override lists shifts the sentence
index. -/
theorem write_conll_sents_shift (sents : List (List Token)) (i : Nat)
    (hr : List Int) (hs : List (List Int)) (dr : List String)
    (ds : List (List String)) :
    write_conll_sents (some (hr :: hs)) (some (dr :: ds)) (i + 1) sents =
    write_conll_sents (some hs) (some ds) i sents := by
  induction sents generalizing i with
  | nil => rfl
  | cons toks rest ih =>
    simp only [write_conll_sents, sentRow, List.get?_cons_succ, ih]

/-- With override lists matching the sentence shapes, `write_conll_sents`
emits the spec-side text of the overridden sentences. -/
theorem write_conll_sents_override (sents : List (List Token))
    (hs : List (List Int)) (ds : List (List String))
    (hlen : List.Forall₂ (fun (toks : List Token) (hr : List Int) =>
      toks.length = hr.length) sents hs)
    (dlen : List.Forall₂ (fun (toks : List Token) (dr : List String) =>
      toks.length = dr.length) sents ds) :
    write_conll_sents (some hs) (some ds) 0 sents =
      some (conllText (overrideSents sents hs ds)) := by
  induction hlen generalizing ds with
  | nil =>
    cases dlen
    rfl
  | cons hhead htail ih =>
    cases dlen with
    | cons dhead dtail =>
      simp only [write_conll_sents, sentRow, List.get?_cons_zero, Option.map_some']
      rw [write_conll_tokens_override _ _ _ hhead dhead, write_conll_sents_shift,
        ih _ dtail]
      rfl

/-- C4: `write_conll` emits one line per token with the ten tab-separated
fields in fixed order; supplied heads/deprels replace each token's own
head/deprel fields and omitted overrides fall back to the intrinsic fields;
every sentence, the last included, is followed by exactly one blank line. -/
theorem write_conll_encoding_spec (sentences : List (List Token))
    (hs : List (List Int)) (ds : List (List String))
    (hlen : List.Forall₂ (fun (toks : List Token) (hr : List Int) =>
      toks.length = hr.length) sentences hs)
    (dlen : List.Forall₂ (fun (toks : List Token) (dr : List String) =>
      toks.length = dr.length) sentences ds) :
    write_conll sentences (some hs) (some ds) =
      some (conllText (overrideSents sentences hs ds)) ∧
    write_conll sentences none none = some (conllText sentences) :=
  ⟨write_conll_sents_override sentences hs ds hlen dlen,
   write_conll_sents_none sentences 0⟩

/-- Witness for C4 on the two-token sentence, both with and without
overrides. -/
theorem write_conll_encoding_spec_witness :
    write_conll [[tokDog, tokBarks]] (some [[3, 1]]) (some [["a", "b"]]) =
      some "1\tDog\tdog\tN\tNN\t_\t3\ta\t_\t_\n2\tbarks\tbark\tV\tVB\t_\t1\tb\t_\t_\n\n" ∧
    write_conll [[tokDog, tokBarks]] none none =
      some "1\tDog\tdog\tN\tNN\t_\t2\tnsubj\t_\t_\n2\tbarks\tbark\tV\tVB\t_\t0\troot\t_\t_\n\n" := by
  have h := write_conll_encoding_spec [[tokDog, tokBarks]] [[3, 1]] [["a", "b"]]
    (List.Forall₂.cons rfl List.Forall₂.nil) (List.Forall₂.cons rfl List.Forall₂.nil)
  exact ⟨h.1.trans (by decide), h.2.trans (by decide)⟩

/-- C1: `report` scores the encoded hypothesis against the configured gold
file first; exactly when that attempt exits non-zero it re-encodes the gold
from the accumulated sentences (no overrides) and retries against it; on
any attempt exiting 0 the returned UAS/LAS are stored; if the retry also
fails the state is unchanged (UAS/LAS remain unset) and the diagnostic
line is returned to the logger instead of an exception. -/
theorem report_retry_policy (scorer : String → String → ProcResult) (gold : String)
    (st : ParsedState) (hyp : String) (r1 : EvalResult)
    (hw : write_conll st.sentences (some st.heads) (some st.deprels) = some hyp)
    (he1 : exec_eval (scorer hyp gold) = some r1) :
    (r1.code = 0 →
      ∀ scorer2 : String → String → ProcResult,
        exec_eval (scorer2 hyp gold) = some r1 →
        Evaluator.report scorer2 gold st =
          some (⟨st.sentences, st.heads, st.deprels, r1.UAS, r1.LAS⟩,
            Evaluator.successMessage r1)) ∧
    (r1.code ≠ 0 →
      ∀ (gold2 : String) (r2 : EvalResult),
        write_conll st.sentences none none = some gold2 →
        exec_eval (scorer hyp gold2) = some r2 →
        ((r2.code = 0 →
          Evaluator.report scorer gold st =
            some (⟨st.sentences, st.heads, st.deprels, r2.UAS, r2.LAS⟩,
              Evaluator.successMessage r2)) ∧
         (r2.code ≠ 0 →
          Evaluator.report scorer gold st = some (st, Evaluator.errorMessage r2)))) := by
  constructor
  · intro hc scorer2 he2
    simp only [Evaluator.report, hw, he2]
    rw [if_neg (not_not_intro hc)]
    simp [Evaluator.finishReport, hc]
  · intro hc gold2 r2 hg he2
    constructor
    · intro hc2
      simp only [Evaluator.report, hw, he1]
      rw [if_pos hc]
      simp only [hg, he2]
      simp [Evaluator.finishReport, hc2]
    · intro hc2
      simp only [Evaluator.report, hw, he1]
      rw [if_pos hc]
      simp only [hg, he2]
      simp [Evaluator.finishReport, hc2]

/-- Witness for C1 along the retry-then-success path: the first attempt
against the configured gold `"GOLD"` fails, the retry against the
regenerated gold succeeds and its metrics are stored. -/
theorem report_retry_policy_witness :
    Evaluator.report scRetry "GOLD" ⟨[[tokDog]], [[2]], [["x"]], none, none⟩ =
      some (⟨[[tokDog]], [[2]], [["x"]], some 3, some 1⟩,
        "[evaluation]\na 1 2\nb 3 4") := by
  have h := report_retry_policy scRetry "GOLD" ⟨[[tokDog]], [[2]], [["x"]], none, none⟩
    "1\tDog\tdog\tN\tNN\t_\t2\tx\t_\t_\n\n" ⟨1, "mismatch", none, none⟩
    (by decide) (by decide)
  have h2 := (h.2 (by decide) "1\tDog\tdog\tN\tNN\t_\t2\tnsubj\t_\t_\n\n"
    ⟨0, "a 1 2\nb 3 4", some 3, some 1⟩ (by decide) (by decide)).1 (by decide)
  exact h2.trans (by decide)

/-- C6: with the scorer a fixed function of the two file contents, a second
`report` with no intervening `append` returns exactly the same state and
log line, so the stored UAS/LAS after the second call equal those after the
first. -/
theorem report_idempotent (scorer : String → String → ProcResult) (gold : String)
    (st st' : ParsedState) (m : String)
    (h : Evaluator.report scorer gold st = some (st', m)) :
    Evaluator.report scorer gold st' = some (st', m) := by
  rcases hw : write_conll st.sentences (some st.heads) (some st.deprels) with _ | hyp
  · have hrep : Evaluator.report scorer gold st = none := by
      simp only [Evaluator.report, hw]
    rw [hrep] at h
    exact absurd h (by simp)
  rcases he1 : exec_eval (scorer hyp gold) with _ | r1
  · have hrep : Evaluator.report scorer gold st = none := by
      simp only [Evaluator.report, hw, he1]
    rw [hrep] at h
    exact absurd h (by simp)
  by_cases hc : r1.code = 0
  · have hrep : Evaluator.report scorer gold st =
        some (⟨st.sentences, st.heads, st.deprels, r1.UAS, r1.LAS⟩,
          Evaluator.successMessage r1) := by
      simp only [Evaluator.report, hw, he1]
      rw [if_neg (not_not_intro hc)]
      simp [Evaluator.finishReport, hc]
    rw [hrep] at h
    injection h with h'
    injection h' with ha hb
    subst ha
    subst hb
    simp only [Evaluator.report, hw, he1]
    rw [if_neg (not_not_intro hc)]
    simp [Evaluator.finishReport, hc]
  · rcases hg : write_conll st.sentences none none with _ | gold2
    · have hrep : Evaluator.report scorer gold st = none := by
        simp only [Evaluator.report, hw, he1]
        rw [if_pos hc]
        simp only [hg]
      rw [hrep] at h
      exact absurd h (by simp)
    rcases he2 : exec_eval (scorer hyp gold2) with _ | r2
    · have hrep : Evaluator.report scorer gold st = none := by
        simp only [Evaluator.report, hw, he1]
        rw [if_pos hc]
        simp only [hg, he2]
      rw [hrep] at h
      exact absurd h (by simp)
    by_cases hc2 : r2.code = 0
    · have hrep : Evaluator.report scorer gold st =
          some (⟨st.sentences, st.heads, st.deprels, r2.UAS, r2.LAS⟩,
            Evaluator.successMessage r2) := by
        simp only [Evaluator.report, hw, he1]
        rw [if_pos hc]
        simp only [hg, he2]
        simp [Evaluator.finishReport, hc2]
      rw [hrep] at h
      injection h with h'
      injection h' with ha hb
      subst ha
      subst hb
      simp only [Evaluator.report, hw, he1]
      rw [if_pos hc]
      simp only [hg, he2]
      simp [Evaluator.finishReport, hc2]
    · have hrep : Evaluator.report scorer gold st =
          some (st, Evaluator.errorMessage r2) := by
        simp only [Evaluator.report, hw, he1]
        rw [if_pos hc]
        simp only [hg, he2]
        simp [Evaluator.finishReport, hc2]
      rw [hrep] at h
      injection h with h'
      injection h' with ha hb
      subst ha
      subst hb
      exact hrep

/-- Witness for C6: the state produced by a first successful `report` is
reproduced exactly by a second `report`. -/
theorem report_idempotent_witness :
    Evaluator.report scTwoLines "g" ⟨[], [], [], some 3, some 1⟩ =
      some (⟨[], [], [], some 3, some 1⟩, "[evaluation]\na 1 2\nb 3 4") := by
  exact report_idempotent scTwoLines "g" Evaluator.reset
    ⟨[], [], [], some 3, some 1⟩ "[evaluation]\na 1 2\nb 3 4" (by decide)

/-- C9 counterexample: after `reset`, a scorer result with exit code 0 and
output violating the two-line numeric convention makes `report` raise
(modelled by `none`), so `report` does not terminate normally for every
possible scorer result. -/
theorem report_after_reset_counterexample :
    Evaluator.report scParseError "g" Evaluator.reset = none := by decide

/-- C9 amended: `reset` followed immediately by `report` with zero
accumulated sentences terminates without raising for every scorer whose
results always parse in `exec_eval` - in particular for every non-zero
exit code; only an exit-code-0 result with unparseable output raises. -/
theorem report_after_reset_total (scorer : String → String → ProcResult)
    (gold : String)
    (htotal : ∀ h g, (exec_eval (scorer h g)).isSome = true) :
    (Evaluator.report scorer gold Evaluator.reset).isSome = true := by
  have hw : write_conll Evaluator.reset.sentences (some Evaluator.reset.heads)
      (some Evaluator.reset.deprels) = some "" := rfl
  have hg : write_conll Evaluator.reset.sentences none none = some "" := rfl
  rcases he1 : exec_eval (scorer "" gold) with _ | r1
  · have hcontra := htotal "" gold
    rw [he1] at hcontra
    simp at hcontra
  by_cases hc : r1.code = 0
  · simp only [Evaluator.report, hw, he1]
    rw [if_neg (not_not_intro hc)]
    simp
  · rcases he2 : exec_eval (scorer "" "") with _ | r2
    · have hcontra := htotal "" ""
      rw [he2] at hcontra
      simp at hcontra
    · simp only [Evaluator.report, hw, he1]
      rw [if_pos hc]
      simp only [hg, he2]
      simp

/-- Witness for C9's amended statement: a scorer that always fails with
exit code 1 satisfies the totality hypothesis, and `report` after `reset`
terminates normally on it. -/
theorem report_after_reset_total_witness :
    (∀ h g, (exec_eval (scFail h g)).isSome = true) ∧
    (Evaluator.report scFail "gold" Evaluator.reset).isSome = true :=
  ⟨fun _ _ => rfl, report_after_reset_total scFail "gold" (fun _ _ => rfl)⟩
